import Mathlib

/-!
# Configuration drift checker: shallow embedding and verification

This file embeds the two scripts of the `config-checker` repository
(`src/scripts/check_config.js`, temporal mode, and
`src/scripts/compare_envs.js`, cross-environment mode) as executable Lean
definitions and proves the frozen specification claims about them.

Modelling conventions:
* A parsed property file (a JS object produced by `properties-parser`) is a
  `PropertyMap`, an association list from string keys to string values;
  `oldObj[key]` returning `undefined` is modelled by `Option`.
* A possibly-`null` map (file absent at a revision) is `Option PropertyMap`.
* The git backend (`simple-git`) is an oracle value (`Repo` structures): its
  `ls-tree` and `show` calls are fields, and the driver functions return,
  alongside their `Except` result, the trace of backend calls they performed.
* A thrown JS error caught by `main`'s `catch` (which prints a diagnostic to
  stderr and calls `process.exit(1)` before any JSON reaches stdout) is
  modelled as `Except.error`; the successful `console.log(JSON.stringify …)`
  path is `Except.ok` carrying the serialized structure.
-/

/-- A parsed `.properties` file: string keys to string values
(`propertiesParser.parse` output). -/
def PropertyMap : Type := List (String × String)

instance : DecidableEq PropertyMap := by
  unfold PropertyMap
  infer_instance

/-- JS object property read `obj[key]`: first binding of `key`, if any. -/
def lookupKey (k : String) : PropertyMap → Option String
  | [] => none
  | (k', v) :: rest => if k' = k then some v else lookupKey k rest

/-- Models `obj ? obj[key] : undefined` where `obj` may be `null`. -/
def lookupVal (m : Option PropertyMap) (k : String) : Option String :=
  match m with
  | none => none
  | some l => lookupKey k l

/-- Models `Object.keys(obj || {})`. -/
def objKeys (m : Option PropertyMap) : List String :=
  match m with
  | none => []
  | some l => l.map Prod.fst

/-- Deduplication keeping the first occurrence, as a JS `Set` does when
built from a list. `seen` accumulates the keys already emitted. -/
def dedupGo (seen : List String) : List String → List String
  | [] => []
  | k :: rest =>
    if k ∈ seen then dedupGo seen rest
    else k :: dedupGo (k :: seen) rest

/-- Models `new Set([...Object.keys(a), ...Object.keys(b)])`: union of two key
lists, first occurrence kept, later duplicates dropped. -/
def keyUnion (xs ys : List String) : List String :=
  dedupGo [] (xs ++ ys)

/-- JS object assignment `m[k] = v`: overwrite in place if the key exists,
otherwise append at the end (JS objects preserve insertion order). -/
def objInsert {α : Type} (m : List (String × α)) (k : String) (v : α) :
    List (String × α) :=
  if m.any (fun p => p.1 == k) then
    m.map (fun p => if p.1 == k then (k, v) else p)
  else m ++ [(k, v)]

/-- Split a character list at every occurrence of `c` (like
`String.prototype.split` on a single character). -/
def splitOnChar (c : Char) : List Char → List (List Char)
  | [] => [[]]
  | x :: rest =>
    let r := splitOnChar c rest
    if x == c then [] :: r
    else
      match r with
      | [] => [[x]]
      | h :: t => (x :: h) :: t

/-- The `/`-separated segments of a path. -/
def pathSegments (p : String) : List String :=
  (splitOnChar '/' p.data).map (fun l => ⟨l⟩)

/-- Models `path.basename`: the last `/`-separated segment. -/
def basename (p : String) : String :=
  (pathSegments p).getLastD p

/-- Whether `pat` is a prefix of `s` (character-wise). -/
def startsWithPat : List Char → List Char → Bool
  | [], _ => true
  | _ :: _, [] => false
  | p :: ps, c :: cs => p == c && startsWithPat ps cs

/-- Models `f.endsWith('.properties')`. -/
def endsWithProps (f : String) : Bool :=
  startsWithPat ".properties".data.reverse f.data.reverse

/-- One-pass global deletion of the literal pattern `pat`, the semantics of
JS `str.replace(/pat/g, '')`: scan left to right over the original
characters; at a match, drop the matched characters and resume scanning
right after them (text juxtaposed by a deletion is not rescanned).
`skip` counts pattern characters still to be consumed after a match. -/
def removeAllGo (pat : List Char) : Nat → List Char → List Char
  | _, [] => []
  | n + 1, _ :: rest => removeAllGo pat n rest
  | 0, c :: rest =>
    if startsWithPat pat (c :: rest) && !pat.isEmpty then
      removeAllGo pat (pat.length - 1) rest
    else c :: removeAllGo pat 0 rest

/-- Models `s.replace(/pat/g, '')` for a literal pattern `pat`. -/
def removeAllS (pat s : String) : String :=
  ⟨removeAllGo pat.data 0 s.data⟩

instance {ε α : Type} [DecidableEq ε] [DecidableEq α] :
    DecidableEq (Except ε α) := fun x y =>
  match x, y with
  | Except.error a, Except.error b =>
    if h : a = b then isTrue (by rw [h])
    else isFalse (by intro hh; injection hh; contradiction)
  | Except.ok a, Except.ok b =>
    if h : a = b then isTrue (by rw [h])
    else isFalse (by intro hh; injection hh; contradiction)
  | Except.error _, Except.ok _ => isFalse (by intro hh; injection hh)
  | Except.ok _, Except.error _ => isFalse (by intro hh; injection hh)

/-- Result of asking the backend for a file's content at a revision
(`git.show` wrapped by `getFileContent`): the file may exist, be absent at
that revision (the `exists on disk, but not in` error branch), or fail with
any other error. -/
inductive FetchResult where
  | absent
  | content (m : PropertyMap)
  | failed (msg : String)

/-- One backend call against file paths: a `git ls-tree` enumeration or a
`git show` content fetch. Calls to `git.tags()` / `rev-list` (revision
validation) are not file-path I/O and are not traced. -/
inductive GitAction where
  | listC (tag dir : String)
  | fetchC (tag path : String)
  deriving DecidableEq

namespace CompareEnvs

/-- From `src/scripts/compare_envs.js` `normalizeValue`: per-role lists of
literal substrings to delete (`patterns`). `isPt = true` is Role A (the
`pt` side), `false` is Role B (the `prod` side). -/
def rolePatterns (isPt : Bool) : List String :=
  if isPt then ["pt-", "contents-pt"] else ["prod-", "prd-", "contents"]

/-- From `compare_envs.js`, `normalizeValue(value, isPt)`: a missing or empty
value (`!value`) normalizes to `''`; otherwise each role pattern is deleted
globally (`replace(/…/g, '')`), first pattern fully before the next. -/
def normalizeValue (value : Option String) (isPt : Bool) : String :=
  match value with
  | none => ""
  | some v =>
    if v = "" then ""
    else (rolePatterns isPt).foldl (fun acc pat => removeAllS pat acc) v

/-- Values of the `type` field of `compare_envs.js` records. -/
inductive ChangeType where
  | added_in_prod
  | added_in_pt
  | changed
  deriving DecidableEq

/-- One element pushed onto `diffs` by `compare_envs.js` `computeDiffs`. -/
structure ChangeRecord where
  key : String
  pt : Option String
  prod : Option String
  type : ChangeType
  deriving DecidableEq

/-- The body of the `allKeys.forEach` loop of `compare_envs.js`
`computeDiffs` for one key: `none` when no record is pushed (values equal,
or the normalization filter suppresses the record). -/
def diffAt (ptObj prodObj : Option PropertyMap) (applyFilter : Bool)
    (key : String) : Option ChangeRecord :=
  let ptVal := lookupVal ptObj key
  let prodVal := lookupVal prodObj key
  if ptVal = prodVal then none
  else
    let normalizedPtVal := normalizeValue ptVal true
    let normalizedProdVal := normalizeValue prodVal false
    if applyFilter = true ∧ normalizedPtVal ≠ "" ∧ normalizedProdVal ≠ "" ∧
        normalizedPtVal = normalizedProdVal then
      none
    else
      some { key := key, pt := ptVal, prod := prodVal,
             type := if ptVal = none then ChangeType.added_in_prod
                     else if prodVal = none then ChangeType.added_in_pt
                     else ChangeType.changed }

/-- From `compare_envs.js`: `computeDiffs(ptObj, prodObj, applyFilter)`. -/
def computeDiffs (ptObj prodObj : Option PropertyMap) (applyFilter : Bool) :
    List ChangeRecord :=
  (keyUnion (objKeys ptObj) (objKeys prodObj)).filterMap
    (diffAt ptObj prodObj applyFilter)

/-- The suppression condition as the specification words it: the key is a
Changed-type difference (present on both sides) whose Role-A normalization
of the left value equals the Role-B normalization of the right value, that
normalized string being non-empty. -/
def suppressedByNormalization (ptObj prodObj : Option PropertyMap)
    (k : String) : Bool :=
  match lookupVal ptObj k, lookupVal prodObj k with
  | some a, some b =>
    (normalizeValue (some a) true == normalizeValue (some b) false) &&
      (normalizeValue (some a) true != "")
  | _, _ => false

end CompareEnvs

namespace CheckConfig

/-- Values of the `type` field of `src/scripts/check_config.js` records. -/
inductive ChangeType where
  | added
  | removed
  | changed
  deriving DecidableEq

/-- One element pushed onto `diffs` by `check_config.js` `computeDiffs`. -/
structure ChangeRecord where
  key : String
  old : Option String
  new : Option String
  type : ChangeType
  deriving DecidableEq

/-- The body of the `allKeys.forEach` loop of `check_config.js`
`computeDiffs` for one key: `none` when the two values are equal. -/
def diffAt (oldObj newObj : Option PropertyMap) (key : String) :
    Option ChangeRecord :=
  let oldVal := lookupVal oldObj key
  let newVal := lookupVal newObj key
  if oldVal = newVal then none
  else
    some { key := key, old := oldVal, new := newVal,
           type := if oldVal = none then ChangeType.added
                   else if newVal = none then ChangeType.removed
                   else ChangeType.changed }

/-- From `check_config.js`: `computeDiffs(oldObj, newObj)`. -/
def computeDiffs (oldObj newObj : Option PropertyMap) : List ChangeRecord :=
  (keyUnion (objKeys oldObj) (objKeys newObj)).filterMap (diffAt oldObj newObj)

end CheckConfig

namespace CheckConfig

/-- A `result.envs[env][fileName]` entry of `check_config.js`: the two
compared maps and their diff list. -/
structure FileDiff where
  old : Option PropertyMap
  new : Option PropertyMap
  diffs : List ChangeRecord
  deriving DecidableEq

/-- The retention test of `check_config.js` line 121:
`diffs.length > 0 || oldContent === null || newContent === null`. -/
def retainFile (oldContent newContent : Option PropertyMap)
    (diffs : List ChangeRecord) : Bool :=
  decide (diffs.length > 0) || oldContent.isNone || newContent.isNone

/-- The per-file loop of `check_config.js` `main` (lines 112-128) over
already-fetched contents: for each `(fileName, oldContent, newContent)`,
compute the diffs and store the `FileDiff` under `fileName` when retained.
`acc` is the `result.envs[env]` object being filled. -/
def buildEnvRepAux (acc : List (String × FileDiff)) :
    List (String × Option PropertyMap × Option PropertyMap) →
    List (String × FileDiff)
  | [] => acc
  | (fileName, oldContent, newContent) :: rest =>
    let diffs := computeDiffs oldContent newContent
    buildEnvRepAux
      (if retainFile oldContent newContent diffs then
        objInsert acc fileName ⟨oldContent, newContent, diffs⟩
      else acc) rest

/-- One environment's report, built from an empty object. -/
def buildEnvReport
    (files : List (String × Option PropertyMap × Option PropertyMap)) :
    List (String × FileDiff) :=
  buildEnvRepAux [] files

/-- The pruning loop of `check_config.js` `main` (lines 131-136): delete
every environment whose file mapping is empty. -/
def pruneEmptyEnvs (m : List (String × List (String × FileDiff))) :
    List (String × List (String × FileDiff)) :=
  m.filter (fun p => !p.2.isEmpty)

/-- The git backend as seen by `check_config.js`: tag list (`git.tags()`),
reachable commits (`rev-list --all`), `ls-tree` enumeration and `show`
content fetch. -/
structure Repo where
  tags : List String
  commits : List String
  lsTree : String → String → Except String (List String)
  showFile : String → String → FetchResult

/-- Models `validRefs = new Set([...tags.all, ...commits.split('\n')])`. -/
def validRefs (repo : Repo) : List String :=
  repo.tags ++ repo.commits

/-- From `check_config.js`, `getFileContent(tag, filePath)`: absent files become
`null` (here `none`); any other `git show` failure is rethrown. -/
def getFileContent (repo : Repo) (tag filePath : String) :
    Except String (Option PropertyMap) :=
  match repo.showFile tag filePath with
  | FetchResult.absent => Except.ok none
  | FetchResult.content m => Except.ok (some m)
  | FetchResult.failed msg => Except.error msg

/-- The fetch half of the per-file loop of `check_config.js` `main`: fetch
each file at the old then the new revision (aborting on the first fetch
error), pairing `path.basename(fullPath)` with the two contents. The second
component is the trace of backend calls made. -/
def fetchFiles (repo : Repo) (oldTag newTag : String) :
    List String →
    Except String (List (String × Option PropertyMap × Option PropertyMap)) ×
      List GitAction
  | [] => (Except.ok [], [])
  | fullPath :: rest =>
    match getFileContent repo oldTag fullPath with
    | Except.error e => (Except.error e, [GitAction.fetchC oldTag fullPath])
    | Except.ok oldContent =>
      match getFileContent repo newTag fullPath with
      | Except.error e =>
        (Except.error e,
         [GitAction.fetchC oldTag fullPath, GitAction.fetchC newTag fullPath])
      | Except.ok newContent =>
        let (res, tr) := fetchFiles repo oldTag newTag rest
        (res.map (fun l => (basename fullPath, oldContent, newContent) :: l),
         GitAction.fetchC oldTag fullPath :: GitAction.fetchC newTag fullPath ::
           tr)

/-- The environment loop of `check_config.js` `main` (lines 103-129):
for each environment, list its `.properties` files at the new revision,
fetch both sides of each file and assemble the retained `FileDiff`s.
`acc` is `result.envs`. -/
def processEnvs (repo : Repo) (oldTag newTag : String)
    (acc : List (String × List (String × FileDiff))) :
    List String →
    Except String (List (String × List (String × FileDiff))) × List GitAction
  | [] => (Except.ok acc, [])
  | env :: rest =>
    let envPath := "config/" ++ env
    match repo.lsTree newTag envPath with
    | Except.error e => (Except.error e, [GitAction.listC newTag envPath])
    | Except.ok files =>
      match fetchFiles repo oldTag newTag (files.filter endsWithProps) with
      | (Except.error e, tr) =>
        (Except.error e, GitAction.listC newTag envPath :: tr)
      | (Except.ok fetched, tr) =>
        let (res, tr') :=
          processEnvs repo oldTag newTag
            (objInsert acc env (buildEnvReport fetched)) rest
        (res, GitAction.listC newTag envPath :: (tr ++ tr'))

/-- The first path segment below `config/`, as computed by
`path.relative(configDir, path.dirname(p)).split(path.sep)[0]`: defined
(for the `config/…` paths `ls-tree` returns) exactly when the file lies in
a subdirectory of `config/`. -/
def envOf (p : String) : Option String :=
  match pathSegments p with
  | "config" :: env :: _ :: _ => some env
  | _ => none

/-- The serialized `result` of `check_config.js` (`{ envs: … }`). -/
structure Result where
  envs : List (String × List (String × FileDiff))
  deriving DecidableEq

/-- Driver `main` of `check_config.js`, as a function of the backend oracle and the
two revision arguments. Returns the outcome (`ok` = JSON printed to stdout,
`error` = diagnostic on stderr and `process.exit(1)`) together with the
trace of file-path backend calls. Revision validation happens first; a
failure to list the `config` root prints an empty result. -/
def mainTemporal (repo : Repo) (oldTag newTag : String) :
    Except String Result × List GitAction :=
  if oldTag ∈ validRefs repo ∧ newTag ∈ validRefs repo then
    match repo.lsTree newTag "config" with
    | Except.error _ => (Except.ok { envs := [] }, [GitAction.listC newTag "config"])
    | Except.ok allFiles =>
      match processEnvs repo oldTag newTag []
          (dedupGo [] ((allFiles.filterMap envOf).filter
            (fun e => !(e == "") && !(e == ".")))) with
      | (Except.error e, tr) =>
        (Except.error e, GitAction.listC newTag "config" :: tr)
      | (Except.ok erep, tr) =>
        (Except.ok { envs := pruneEmptyEnvs erep },
         GitAction.listC newTag "config" :: tr)
  else
    (Except.error ("Tag or commit invalid: oldTag=" ++ oldTag ++
      ", newTag=" ++ newTag), [])

end CheckConfig

namespace CompareEnvs

/-- A `result.diffs[fileName]` entry of `compare_envs.js`. -/
structure FileDiff where
  pt : Option PropertyMap
  prod : Option PropertyMap
  diffs : List ChangeRecord
  deriving DecidableEq

/-- The retention test of `compare_envs.js` line 149:
`diffs.length > 0 || ptContent === null || prodContent === null`. -/
def retainFile (ptContent prodContent : Option PropertyMap)
    (diffs : List ChangeRecord) : Bool :=
  decide (diffs.length > 0) || ptContent.isNone || prodContent.isNone

/-- Models `result.envs.pt[fileName] || null`: a name missing from the gathered
environment object reads as `null`, and a stored `null` stays `null`. -/
def joinLookup (m : List (String × Option PropertyMap)) (k : String) :
    Option PropertyMap :=
  match lookupEnv m k with
  | none => none
  | some c => c
where
  /-- Plain association-list read on the gathered environment object. -/
  lookupEnv : List (String × Option PropertyMap) → String → Option (Option PropertyMap)
    | [], _ => none
    | (k', v) :: rest, k => if k' = k then some v else lookupEnv rest k

/-- The `allFiles.forEach` comparison loop of `compare_envs.js` `main`
(lines 143-156): for each file name in the union, diff the two contents and
store the `FileDiff` when retained. `acc` is `result.diffs`. -/
def buildCrossAux (ptFiles prodFiles : List (String × Option PropertyMap))
    (applyFilter : Bool) (acc : List (String × FileDiff)) :
    List String → List (String × FileDiff)
  | [] => acc
  | fileName :: rest =>
    let ptContent := joinLookup ptFiles fileName
    let prodContent := joinLookup prodFiles fileName
    let diffs := computeDiffs ptContent prodContent applyFilter
    buildCrossAux ptFiles prodFiles applyFilter
      (if retainFile ptContent prodContent diffs then
        objInsert acc fileName ⟨ptContent, prodContent, diffs⟩
      else acc) rest

/-- Builds `result.diffs` of `compare_envs.js`: the comparison loop run over the
union of file names gathered for `pt` and `prod`. -/
def buildCrossDiffs (ptFiles prodFiles : List (String × Option PropertyMap))
    (applyFilter : Bool) : List (String × FileDiff) :=
  buildCrossAux ptFiles prodFiles applyFilter []
    (keyUnion (ptFiles.map Prod.fst) (prodFiles.map Prod.fst))

/-- Models `const [, , tag, filter = 'true'] = process.argv` followed by
`filter === 'true'` (line 147): the suppression flag actually passed to
`computeDiffs`. `none` models an absent second positional argument. -/
def suppressionEnabled (filterArg : Option String) : Bool :=
  filterArg.getD "true" == "true"

/-- The git backend as seen by `compare_envs.js`, together with the result
of `checkRepoPath` (whether the repository path exists and is a git
working copy). -/
structure Repo where
  repoAccessible : Bool
  tags : List String
  commits : List String
  lsTree : String → String → Except String (List String)
  showFile : String → String → FetchResult

/-- Models `validRefs = new Set([...tags.all, ...commits.split('\n')])`. -/
def validRefs (repo : Repo) : List String :=
  repo.tags ++ repo.commits

/-- From `compare_envs.js`: `getFileContent(tag, filePath)`. -/
def getFileContent (repo : Repo) (tag filePath : String) :
    Except String (Option PropertyMap) :=
  match repo.showFile tag filePath with
  | FetchResult.absent => Except.ok none
  | FetchResult.content m => Except.ok (some m)
  | FetchResult.failed msg => Except.error msg

/-- The content-gathering loop of `compare_envs.js` `main` (lines 135-139):
fetch every listed file of one environment at `tag` and store it under its
base name in `result.envs[env]` (`acc`). -/
def gatherEnv (repo : Repo) (tag : String)
    (acc : List (String × Option PropertyMap)) :
    List String →
    Except String (List (String × Option PropertyMap)) × List GitAction
  | [] => (Except.ok acc, [])
  | fullPath :: rest =>
    match getFileContent repo tag fullPath with
    | Except.error e => (Except.error e, [GitAction.fetchC tag fullPath])
    | Except.ok content =>
      let (res, tr) :=
        gatherEnv repo tag (objInsert acc (basename fullPath) content) rest
      (res, GitAction.fetchC tag fullPath :: tr)

/-- The serialized `result` of `compare_envs.js` after `delete result.envs`
(`{ diffs: … }`). -/
structure CrossResult where
  diffs : List (String × FileDiff)
  deriving DecidableEq

/-- Driver `main` of `compare_envs.js`, as a function of the backend oracle, the
revision argument and the optional filter argument. `checkRepoPath` runs
first (exit 1 if the repository path is unusable), then revision
validation, then the two environments `pt` and `prod` are listed and
gathered at `tag`, and finally the union of file names is compared. -/
def mainCross (repo : Repo) (tag : String) (filterArg : Option String) :
    Except String CrossResult × List GitAction :=
  if repo.repoAccessible = false then
    (Except.error ("Directory missing or not a git repository"), [])
  else if tag ∈ validRefs repo then
    match repo.lsTree tag "config/pt" with
    | Except.error e => (Except.error e, [GitAction.listC tag "config/pt"])
    | Except.ok ptAll =>
      match gatherEnv repo tag [] (ptAll.filter endsWithProps) with
      | (Except.error e, tr) =>
        (Except.error e, GitAction.listC tag "config/pt" :: tr)
      | (Except.ok ptFiles, tr1) =>
        match repo.lsTree tag "config/prod" with
        | Except.error e =>
          (Except.error e,
           GitAction.listC tag "config/pt" :: (tr1 ++ [GitAction.listC tag "config/prod"]))
        | Except.ok prodAll =>
          match gatherEnv repo tag [] (prodAll.filter endsWithProps) with
          | (Except.error e, tr2) =>
            (Except.error e,
             GitAction.listC tag "config/pt" ::
               (tr1 ++ GitAction.listC tag "config/prod" :: tr2))
          | (Except.ok prodFiles, tr2) =>
            (Except.ok
              { diffs :=
                  buildCrossDiffs ptFiles prodFiles (suppressionEnabled filterArg) },
             GitAction.listC tag "config/pt" ::
               (tr1 ++ GitAction.listC tag "config/prod" :: tr2))
  else
    (Except.error ("Tag or commit invalid: " ++ tag), [])

end CompareEnvs

/-- A small concrete backend used to instantiate the theorems about
`mainTemporal`: one environment `pt` holding one property file, absent at
tag `v1` and containing `a=1` at tag `v2`. -/
def repoWitness : CheckConfig.Repo :=
  { tags := ["v1", "v2"]
    commits := []
    lsTree := fun _ dir =>
      if dir = "config" then Except.ok ["config/pt/app.properties"]
      else if dir = "config/pt" then Except.ok ["config/pt/app.properties"]
      else Except.error "bad path"
    showFile := fun tg _ =>
      if tg = "v1" then FetchResult.absent
      else FetchResult.content [("a", "1")] }

section BasicLemmas

theorem lookupKey_isSome_iff (k : String) (l : PropertyMap) :
    (lookupKey k l).isSome = true ↔ k ∈ l.map Prod.fst := by
  induction l with
  | nil => simp [lookupKey]
  | cons p rest ih =>
    obtain ⟨k', v⟩ := p
    by_cases h : k' = k
    · subst h
      simp [lookupKey]
    · simp [lookupKey, h, ih, Ne.symm h]

theorem lookupVal_isSome_iff (m : Option PropertyMap) (k : String) :
    (lookupVal m k).isSome = true ↔ k ∈ objKeys m := by
  cases m with
  | none => simp [lookupVal, objKeys]
  | some l => simpa [lookupVal, objKeys] using lookupKey_isSome_iff k l

theorem mem_dedupGo (a : String) (l : List String) :
    ∀ seen : List String, a ∈ dedupGo seen l ↔ a ∈ l ∧ a ∉ seen := by
  induction l with
  | nil => simp [dedupGo]
  | cons k rest ih =>
    intro seen
    by_cases hk : k ∈ seen
    · rw [dedupGo, if_pos hk, ih seen]
      constructor
      · rintro ⟨h1, h2⟩
        exact ⟨List.mem_cons_of_mem k h1, h2⟩
      · rintro ⟨h1, h2⟩
        rcases List.mem_cons.1 h1 with h1 | h1
        · exact absurd hk (h1 ▸ h2)
        · exact ⟨h1, h2⟩
    · rw [dedupGo, if_neg hk]
      by_cases ha : a = k
      · subst ha
        simp [hk]
      · constructor
        · intro h
          rcases List.mem_cons.1 h with h | h
          · exact absurd h ha
          · have h' := (ih (k :: seen)).1 h
            exact ⟨List.mem_cons_of_mem k h'.1,
              fun hs => h'.2 (List.mem_cons_of_mem k hs)⟩
        · rintro ⟨h1, h2⟩
          rcases List.mem_cons.1 h1 with h1 | h1
          · exact absurd h1 ha
          · refine List.mem_cons_of_mem k ((ih (k :: seen)).2 ⟨h1, ?_⟩)
            intro hs
            rcases List.mem_cons.1 hs with hs | hs
            · exact ha hs
            · exact h2 hs

theorem dedupGo_nodup (l : List String) :
    ∀ seen : List String, (dedupGo seen l).Nodup := by
  induction l with
  | nil => intro seen; simp [dedupGo]
  | cons k rest ih =>
    intro seen
    by_cases hk : k ∈ seen
    · rw [dedupGo, if_pos hk]; exact ih seen
    · rw [dedupGo, if_neg hk]
      refine List.nodup_cons.2 ⟨?_, ih (k :: seen)⟩
      intro hmem
      exact ((mem_dedupGo k rest (k :: seen)).1 hmem).2 (List.mem_cons_self k seen)

theorem mem_keyUnion (a : String) (xs ys : List String) :
    a ∈ keyUnion xs ys ↔ a ∈ xs ∨ a ∈ ys := by
  simp [keyUnion, mem_dedupGo]

theorem keyUnion_nodup (xs ys : List String) : (keyUnion xs ys).Nodup :=
  dedupGo_nodup _ []

/-- Counting the records produced for a given key by a per-key generator
`g` mapped over a duplicate-free key list: one when the key is in the list
and `g` emits a record there, zero otherwise. -/
theorem countP_filterMap_key {α : Type} (keyOf : α → String)
    (g : String → Option α) (hg : ∀ k r, g k = some r → keyOf r = k)
    (k : String) :
    ∀ l : List String, l.Nodup →
      (l.filterMap g).countP (fun r => keyOf r == k) =
        if k ∈ l ∧ (g k).isSome = true then 1 else 0 := by
  intro l
  induction l with
  | nil => simp
  | cons a rest ih =>
    intro hnd
    obtain ⟨hna, hndr⟩ := List.nodup_cons.1 hnd
    rw [List.filterMap_cons]
    cases hga : g a with
    | none =>
      rw [ih hndr]
      by_cases hak : k = a
      · subst hak
        simp [hga, hna]
      · simp [hak, Ne.symm hak]
    | some r =>
      have hkey : keyOf r = a := hg a r hga
      rw [List.countP_cons, ih hndr]
      by_cases hak : k = a
      · subst hak
        simp [hna, hga, hkey]
      · have : (keyOf r == k) = false := by
          simp [hkey, Ne.symm hak]
        simp [this, hak]

end BasicLemmas

section EngineLemmas

theorem CheckConfig.temporal_diffAt_spec {A B : Option PropertyMap} {k : String}
    {r : CheckConfig.ChangeRecord} (h : CheckConfig.diffAt A B k = some r) :
    r.key = k ∧ r.old = lookupVal A k ∧ r.new = lookupVal B k ∧
      lookupVal A k ≠ lookupVal B k ∧
      r.type = (if lookupVal A k = none then CheckConfig.ChangeType.added
                else if lookupVal B k = none then CheckConfig.ChangeType.removed
                else CheckConfig.ChangeType.changed) := by
  simp only [CheckConfig.diffAt] at h
  split at h
  next hc => exact absurd h (by simp)
  next hc =>
    injection h with h2
    subst h2
    exact ⟨rfl, rfl, rfl, hc, rfl⟩

theorem CheckConfig.diffAt_isSome (A B : Option PropertyMap) (k : String) :
    (CheckConfig.diffAt A B k).isSome = true ↔
      lookupVal A k ≠ lookupVal B k := by
  by_cases hc : lookupVal A k = lookupVal B k <;>
    simp [CheckConfig.diffAt, hc]

theorem CompareEnvs.cross_diffAt_spec {A B : Option PropertyMap} {flag : Bool}
    {k : String} {r : CompareEnvs.ChangeRecord}
    (h : CompareEnvs.diffAt A B flag k = some r) :
    r.key = k ∧ r.pt = lookupVal A k ∧ r.prod = lookupVal B k ∧
      lookupVal A k ≠ lookupVal B k ∧
      r.type = (if lookupVal A k = none then CompareEnvs.ChangeType.added_in_prod
                else if lookupVal B k = none then CompareEnvs.ChangeType.added_in_pt
                else CompareEnvs.ChangeType.changed) := by
  simp only [CompareEnvs.diffAt] at h
  split at h
  next hc => exact absurd h (by simp)
  next hc =>
    split at h
    next hs => exact absurd h (by simp)
    next hs =>
      injection h with h2
      subst h2
      exact ⟨rfl, rfl, rfl, hc, rfl⟩

theorem CompareEnvs.suppCond_iff (A B : Option PropertyMap) (k : String) :
    (CompareEnvs.normalizeValue (lookupVal A k) true ≠ "" ∧
     CompareEnvs.normalizeValue (lookupVal B k) false ≠ "" ∧
     CompareEnvs.normalizeValue (lookupVal A k) true =
       CompareEnvs.normalizeValue (lookupVal B k) false)
    ↔ CompareEnvs.suppressedByNormalization A B k = true := by
  cases hA : lookupVal A k with
  | none => simp [CompareEnvs.normalizeValue, CompareEnvs.suppressedByNormalization, hA]
  | some a =>
    cases hB : lookupVal B k with
    | none =>
      simp [CompareEnvs.normalizeValue, CompareEnvs.suppressedByNormalization,
        hA, hB]
    | some b =>
      simp only [CompareEnvs.suppressedByNormalization, hA, hB,
        Bool.and_eq_true, beq_iff_eq, bne_iff_ne]
      constructor
      · rintro ⟨h1, _, h3⟩
        exact ⟨h3, h1⟩
      · rintro ⟨h1, h2⟩
        exact ⟨h2, h1 ▸ h2, h1⟩

theorem CompareEnvs.diffAt_isSome_filter (A B : Option PropertyMap)
    (k : String) :
    (CompareEnvs.diffAt A B true k).isSome = true ↔
      (lookupVal A k ≠ lookupVal B k ∧
       CompareEnvs.suppressedByNormalization A B k = false) := by
  by_cases hc : lookupVal A k = lookupVal B k
  · simp [CompareEnvs.diffAt, hc]
  · by_cases hs : CompareEnvs.suppressedByNormalization A B k = true
    · have hcond := (CompareEnvs.suppCond_iff A B k).2 hs
      simp [CompareEnvs.diffAt, hc, hcond.1, hcond.2.1, hcond.2.2, hs]
    · have hcond : ¬ (CompareEnvs.normalizeValue (lookupVal A k) true ≠ "" ∧
          CompareEnvs.normalizeValue (lookupVal B k) false ≠ "" ∧
          CompareEnvs.normalizeValue (lookupVal A k) true =
            CompareEnvs.normalizeValue (lookupVal B k) false) :=
        fun hx => hs ((CompareEnvs.suppCond_iff A B k).1 hx)
      rw [Bool.not_eq_true] at hs
      simp only [CompareEnvs.diffAt]
      rw [if_neg hc, if_neg (by simpa using hcond)]
      simp [hc, hs]

theorem CompareEnvs.diffAt_isSome_nofilter (A B : Option PropertyMap)
    (k : String) :
    (CompareEnvs.diffAt A B false k).isSome = true ↔
      lookupVal A k ≠ lookupVal B k := by
  by_cases hc : lookupVal A k = lookupVal B k <;>
    simp [CompareEnvs.diffAt, hc]

theorem disagree_mem_keyUnion (A B : Option PropertyMap) (k : String)
    (h : lookupVal A k ≠ lookupVal B k) :
    k ∈ keyUnion (objKeys A) (objKeys B) := by
  rw [mem_keyUnion]
  cases hA : lookupVal A k with
  | some a =>
    exact Or.inl ((lookupVal_isSome_iff A k).1 (by rw [hA]; rfl))
  | none =>
    cases hB : lookupVal B k with
    | none => exact absurd (hA.trans hB.symm) h
    | some b =>
      exact Or.inr ((lookupVal_isSome_iff B k).1 (by rw [hB]; rfl))

end EngineLemmas

/-- Claim C1: for every pair of optional `PropertyMap`s `(A, B)` and every
key `k`, the unsuppressed diff output (of both the temporal engine and the
cross-environment engine with the filter off) contains exactly one record
for `k` when `A` and `B` disagree on `k` and no record otherwise; and
disagreement is exactly one-sided presence or presence on both sides with
different values, every key of either side being considered. -/
theorem claim_C1_diff_keys_exact (A B : Option PropertyMap) (k : String) :
    ((CheckConfig.computeDiffs A B).countP (fun r => r.key == k) =
      if lookupVal A k ≠ lookupVal B k then 1 else 0)
  ∧ ((CompareEnvs.computeDiffs A B false).countP (fun r => r.key == k) =
      if lookupVal A k ≠ lookupVal B k then 1 else 0)
  ∧ (lookupVal A k ≠ lookupVal B k ↔
      ((k ∈ objKeys A ∧ k ∉ objKeys B) ∨ (k ∉ objKeys A ∧ k ∈ objKeys B) ∨
       (∃ a b, lookupVal A k = some a ∧ lookupVal B k = some b ∧ a ≠ b))) := by
  refine ⟨?_, ?_, ?_⟩
  · unfold CheckConfig.computeDiffs
    rw [countP_filterMap_key CheckConfig.ChangeRecord.key
      (CheckConfig.diffAt A B)
      (fun kk r hr => (CheckConfig.temporal_diffAt_spec hr).1) k _
      (keyUnion_nodup _ _)]
    simp only [CheckConfig.diffAt_isSome]
    by_cases hne : lookupVal A k = lookupVal B k
    · simp [hne]
    · simp [hne, disagree_mem_keyUnion A B k hne]
  · unfold CompareEnvs.computeDiffs
    rw [countP_filterMap_key CompareEnvs.ChangeRecord.key
      (CompareEnvs.diffAt A B false)
      (fun kk r hr => (CompareEnvs.cross_diffAt_spec hr).1) k _
      (keyUnion_nodup _ _)]
    simp only [CompareEnvs.diffAt_isSome_nofilter]
    by_cases hne : lookupVal A k = lookupVal B k
    · simp [hne]
    · simp [hne, disagree_mem_keyUnion A B k hne]
  · have hA' := lookupVal_isSome_iff A k
    have hB' := lookupVal_isSome_iff B k
    cases hA : lookupVal A k with
    | none =>
      rw [hA] at hA'
      cases hB : lookupVal B k with
      | none =>
        rw [hB] at hB'
        simp only [Option.isSome_none, Bool.false_eq_true, false_iff] at hA' hB'
        simp [hA', hB']
      | some b =>
        rw [hB] at hB'
        simp only [Option.isSome_none, Bool.false_eq_true, false_iff,
          Option.isSome_some, true_iff] at hA' hB'
        simp [hA', hB']
    | some a =>
      rw [hA] at hA'
      cases hB : lookupVal B k with
      | none =>
        rw [hB] at hB'
        simp only [Option.isSome_none, Bool.false_eq_true, false_iff,
          Option.isSome_some, true_iff] at hA' hB'
        simp [hA', hB']
      | some b =>
        rw [hB] at hB'
        simp only [Option.isSome_some, true_iff] at hA' hB'
        simp [hA', hB']

/-- Claim C2: with suppression on, the cross-environment engine emits exactly
one record for a disagreeing key unless the suppression condition holds (in
which case it emits none); with suppression off it always emits the record
for a disagreeing key; and the suppression condition holds exactly for
Changed-type differences (both sides present) whose Role-A normalization of
the left value equals the Role-B normalization of the right value with that
normalized string non-empty. Added/Removed records (one side missing) are
never suppressed, since the condition requires both sides present. -/
theorem claim_C2_suppression (A B : Option PropertyMap) (k : String) :
    ((CompareEnvs.computeDiffs A B true).countP (fun r => r.key == k) =
      if lookupVal A k ≠ lookupVal B k ∧
          CompareEnvs.suppressedByNormalization A B k = false then 1 else 0)
  ∧ ((CompareEnvs.computeDiffs A B false).countP (fun r => r.key == k) =
      if lookupVal A k ≠ lookupVal B k then 1 else 0)
  ∧ (CompareEnvs.suppressedByNormalization A B k = true ↔
      ∃ a b, lookupVal A k = some a ∧ lookupVal B k = some b ∧
        CompareEnvs.normalizeValue (some a) true =
          CompareEnvs.normalizeValue (some b) false ∧
        CompareEnvs.normalizeValue (some a) true ≠ "") := by
  refine ⟨?_, (claim_C1_diff_keys_exact A B k).2.1, ?_⟩
  · unfold CompareEnvs.computeDiffs
    rw [countP_filterMap_key CompareEnvs.ChangeRecord.key
      (CompareEnvs.diffAt A B true)
      (fun kk r hr => (CompareEnvs.cross_diffAt_spec hr).1) k _
      (keyUnion_nodup _ _)]
    simp only [CompareEnvs.diffAt_isSome_filter]
    by_cases hne : lookupVal A k = lookupVal B k
    · simp [hne]
    · simp [hne, disagree_mem_keyUnion A B k hne]
  · cases hA : lookupVal A k with
    | none => simp [CompareEnvs.suppressedByNormalization, hA]
    | some a =>
      cases hB : lookupVal B k with
      | none => simp [CompareEnvs.suppressedByNormalization, hA, hB]
      | some b =>
        simp [CompareEnvs.suppressedByNormalization, hA, hB,
          Bool.and_eq_true, beq_iff_eq, bne_iff_ne, and_assoc]

/-- Claim C3: the normalizer is a pure total function; an absent or empty
value normalizes to the empty string; otherwise Role A deletes every
occurrence of `pt-` and then of `contents-pt`, Role B deletes every
occurrence of `prod-`, then `prd-`, then `contents`, each rule applied
fully (one global left-to-right replacement pass) before the next; in
particular `normalize("pt-svc", RoleA) = "svc"` and
`normalize("prod-svc", RoleB) = "svc"`. -/
theorem claim_C3_normalizer (role : Bool) (v : String) :
    (CompareEnvs.normalizeValue none role = "" ∧
     CompareEnvs.normalizeValue (some "") role = "")
  ∧ (CompareEnvs.normalizeValue (some v) true =
      removeAllS "contents-pt" (removeAllS "pt-" v))
  ∧ (CompareEnvs.normalizeValue (some v) false =
      removeAllS "contents" (removeAllS "prd-" (removeAllS "prod-" v)))
  ∧ CompareEnvs.normalizeValue (some "pt-svc") true = "svc"
  ∧ CompareEnvs.normalizeValue (some "prod-svc") false = "svc"
  ∧ CompareEnvs.normalizeValue (some "apt-b-pt-c") true = "ab-c" := by
  refine ⟨⟨rfl, by simp [CompareEnvs.normalizeValue]⟩, ?_, ?_,
    by decide, by decide, by decide⟩
  · by_cases hv : v = ""
    · subst hv; decide
    · simp [CompareEnvs.normalizeValue, CompareEnvs.rolePatterns, hv]
  · by_cases hv : v = ""
    · subst hv; decide
    · simp [CompareEnvs.normalizeValue, CompareEnvs.rolePatterns, hv]

/-- Claim C4: every record emitted by either engine is classified `added`
(respectively `added_in_prod`) exactly when its key is present only on the
new/right side, `removed` (respectively `added_in_pt`) exactly when the key
is present only on the old/left side, and `changed` exactly when the key is
present on both sides with different values. -/
theorem claim_C4_change_kind (A B : Option PropertyMap) :
    (∀ r ∈ CheckConfig.computeDiffs A B,
      (r.type = CheckConfig.ChangeType.added ↔
        lookupVal A r.key = none ∧ (lookupVal B r.key).isSome = true)
      ∧ (r.type = CheckConfig.ChangeType.removed ↔
        (lookupVal A r.key).isSome = true ∧ lookupVal B r.key = none)
      ∧ (r.type = CheckConfig.ChangeType.changed ↔
        ∃ a b, lookupVal A r.key = some a ∧ lookupVal B r.key = some b ∧
          a ≠ b))
  ∧ (∀ flag : Bool, ∀ r ∈ CompareEnvs.computeDiffs A B flag,
      (r.type = CompareEnvs.ChangeType.added_in_prod ↔
        lookupVal A r.key = none ∧ (lookupVal B r.key).isSome = true)
      ∧ (r.type = CompareEnvs.ChangeType.added_in_pt ↔
        (lookupVal A r.key).isSome = true ∧ lookupVal B r.key = none)
      ∧ (r.type = CompareEnvs.ChangeType.changed ↔
        ∃ a b, lookupVal A r.key = some a ∧ lookupVal B r.key = some b ∧
          a ≠ b)) := by
  constructor
  · intro r hr
    obtain ⟨kk, _, hsome⟩ := List.mem_filterMap.1 hr
    obtain ⟨hkey, _, _, hne, htype⟩ := CheckConfig.temporal_diffAt_spec hsome
    subst hkey
    cases hA : lookupVal A r.key with
    | none =>
      cases hB : lookupVal B r.key with
      | none => rw [hA, hB] at hne; exact absurd rfl hne
      | some b => rw [hA, hB] at htype; simp [htype, hA, hB]
    | some a =>
      cases hB : lookupVal B r.key with
      | none =>
        rw [hA, hB] at htype
        simp at htype
        simp [htype, hA, hB]
      | some b =>
        rw [hA, hB] at htype hne
        have hab : a ≠ b := fun he => hne (by rw [he])
        simp at htype
        simp [htype, hA, hB, hab]
  · intro flag r hr
    obtain ⟨kk, _, hsome⟩ := List.mem_filterMap.1 hr
    obtain ⟨hkey, _, _, hne, htype⟩ := CompareEnvs.cross_diffAt_spec hsome
    subst hkey
    cases hA : lookupVal A r.key with
    | none =>
      cases hB : lookupVal B r.key with
      | none => rw [hA, hB] at hne; exact absurd rfl hne
      | some b => rw [hA, hB] at htype; simp [htype, hA, hB]
    | some a =>
      cases hB : lookupVal B r.key with
      | none =>
        rw [hA, hB] at htype
        simp at htype
        simp [htype, hA, hB]
      | some b =>
        rw [hA, hB] at htype hne
        have hab : a ≠ b := fun he => hne (by rw [he])
        simp at htype
        simp [htype, hA, hB, hab]

/-- Witness for C4: the concrete record emitted for the removed key `a`
when the old side is `{a: "1"}` and the new side is absent. -/
theorem claim_C4_change_kind_witness :
    ((⟨"a", some "1", none, CheckConfig.ChangeType.removed⟩ :
        CheckConfig.ChangeRecord).type = CheckConfig.ChangeType.added ↔
      lookupVal (some [("a", "1")]) "a" = none ∧
        (lookupVal none "a").isSome = true)
    ∧ ((⟨"a", some "1", none, CheckConfig.ChangeType.removed⟩ :
        CheckConfig.ChangeRecord).type = CheckConfig.ChangeType.removed ↔
      (lookupVal (some [("a", "1")]) "a").isSome = true ∧
        lookupVal none "a" = none)
    ∧ ((⟨"a", some "1", none, CheckConfig.ChangeType.removed⟩ :
        CheckConfig.ChangeRecord).type = CheckConfig.ChangeType.changed ↔
      ∃ a b, lookupVal (some [("a", "1")]) "a" = some a ∧
        lookupVal none "a" = some b ∧ a ≠ b) :=
  (claim_C4_change_kind (some [("a", "1")]) none).1
    ⟨"a", some "1", none, CheckConfig.ChangeType.removed⟩ (by decide)

/-- Claim C9: cross-environment suppression is applied iff the second
positional argument is absent (destructuring default `'true'`) or is the
exact string `"true"`; any other string, `"false"` and `""` included,
disables it. -/
theorem claim_C9_filter_flag (s : String) :
    CompareEnvs.suppressionEnabled none = true
  ∧ CompareEnvs.suppressionEnabled (some s) = (s == "true")
  ∧ CompareEnvs.suppressionEnabled (some "true") = true
  ∧ CompareEnvs.suppressionEnabled (some "false") = false
  ∧ CompareEnvs.suppressionEnabled (some "") = false :=
  ⟨rfl, rfl, by decide, by decide, by decide⟩

/-- Claim C10: the normalizer is not idempotent: one left-to-right global
pass can juxtapose characters into a fresh occurrence of a pattern;
Role-A normalization of `"ppt-t-x"` yields `"pt-x"`, which still contains
`"pt-"`, and normalizing again yields `"x"`. -/
theorem claim_C10_not_idempotent :
    CompareEnvs.normalizeValue (some "ppt-t-x") true = "pt-x"
  ∧ CompareEnvs.normalizeValue
      (some (CompareEnvs.normalizeValue (some "ppt-t-x") true)) true = "x"
  ∧ CompareEnvs.normalizeValue
      (some (CompareEnvs.normalizeValue (some "ppt-t-x") true)) true ≠
      CompareEnvs.normalizeValue (some "ppt-t-x") true := by
  refine ⟨by decide, by decide, by decide⟩

section BuilderLemmas

theorem objInsert_fresh {α : Type} (m : List (String × α)) (k : String)
    (v : α) (hk : k ∉ m.map Prod.fst) : objInsert m k v = m ++ [(k, v)] := by
  have hany : ¬ (m.any (fun p => p.1 == k) = true) := by
    simp only [List.any_eq_true, beq_iff_eq]
    rintro ⟨p, hp, hpk⟩
    exact hk (hpk ▸ List.mem_map_of_mem Prod.fst hp)
  simp [objInsert, hany]

theorem mem_objInsert {α : Type} {m : List (String × α)} {k : String} {v : α}
    {x : String × α} (hx : x ∈ objInsert m k v) : x ∈ m ∨ x = (k, v) := by
  unfold objInsert at hx
  by_cases hc : (m.any (fun p => p.1 == k)) = true
  · rw [if_pos hc] at hx
    obtain ⟨p, hp, hpx⟩ := List.mem_map.1 hx
    by_cases hpk : (p.1 == k) = true
    · rw [if_pos hpk] at hpx
      exact Or.inr hpx.symm
    · rw [if_neg hpk] at hpx
      exact Or.inl (hpx ▸ hp)
  · rw [if_neg hc] at hx
    rcases List.mem_append.1 hx with h | h
    · exact Or.inl h
    · exact Or.inr (List.mem_singleton.1 h)

theorem nodup_keys_inj {α : Type} {f : α → String} :
    ∀ {l : List α}, (l.map f).Nodup →
      ∀ x ∈ l, ∀ y ∈ l, f x = f y → x = y := by
  intro l
  induction l with
  | nil => intro _ x hx; exact absurd hx (List.not_mem_nil x)
  | cons a rest ih =>
    intro hnd x hx y hy hxy
    obtain ⟨hna, hndr⟩ : f a ∉ rest.map f ∧ (rest.map f).Nodup := by
      rw [List.map_cons] at hnd
      exact List.nodup_cons.1 hnd
    rcases List.mem_cons.1 hx with hx1 | hx1
    · rcases List.mem_cons.1 hy with hy1 | hy1
      · rw [hx1, hy1]
      · subst hx1
        apply absurd _ hna
        rw [hxy]
        exact List.mem_map_of_mem f hy1
    · rcases List.mem_cons.1 hy with hy1 | hy1
      · subst hy1
        apply absurd _ hna
        rw [← hxy]
        exact List.mem_map_of_mem f hx1
      · exact ih hndr x hx1 y hy1 hxy

theorem CheckConfig.buildEnvRepAux_eq :
    ∀ (files : List (String × Option PropertyMap × Option PropertyMap))
      (acc : List (String × CheckConfig.FileDiff)),
      (files.map (fun t => t.1)).Nodup →
      (∀ t ∈ files, t.1 ∉ acc.map Prod.fst) →
      CheckConfig.buildEnvRepAux acc files =
        acc ++ files.filterMap (fun t =>
          if CheckConfig.retainFile t.2.1 t.2.2
              (CheckConfig.computeDiffs t.2.1 t.2.2) then
            some (t.1, ⟨t.2.1, t.2.2, CheckConfig.computeDiffs t.2.1 t.2.2⟩)
          else none) := by
  intro files
  induction files with
  | nil => intro acc _ _; simp [CheckConfig.buildEnvRepAux]
  | cons t rest ih =>
    intro acc hnd hdis
    obtain ⟨fileName, oldC, newC⟩ := t
    obtain ⟨hna, hndr⟩ : fileName ∉ rest.map (fun t => t.1) ∧
        (rest.map (fun t => t.1)).Nodup := by
      rw [List.map_cons] at hnd
      exact List.nodup_cons.1 hnd
    simp only [CheckConfig.buildEnvRepAux]
    by_cases hret : CheckConfig.retainFile oldC newC
        (CheckConfig.computeDiffs oldC newC) = true
    · rw [if_pos hret,
        objInsert_fresh acc fileName _ (hdis _ (List.mem_cons_self _ _))]
      have hdis' : ∀ t' ∈ rest, t'.1 ∉
          (acc ++ [(fileName, (⟨oldC, newC, CheckConfig.computeDiffs oldC newC⟩ :
            CheckConfig.FileDiff))]).map Prod.fst := by
        intro t' ht'
        simp only [List.map_append, List.mem_append]
        rintro (h | h)
        · exact hdis t' (List.mem_cons_of_mem _ ht') h
        · simp only [List.map_cons, List.map_nil, List.mem_singleton] at h
          exact hna (h ▸ List.mem_map_of_mem (fun t => t.1) ht')
      rw [ih _ hndr hdis']
      simp [List.filterMap_cons, hret, List.append_assoc]
    · rw [if_neg hret,
        ih acc hndr (fun t' ht' => hdis t' (List.mem_cons_of_mem _ ht'))]
      simp [List.filterMap_cons, hret]

theorem CompareEnvs.buildCrossAux_eq
    (ptFiles prodFiles : List (String × Option PropertyMap)) (flag : Bool) :
    ∀ (names : List String) (acc : List (String × CompareEnvs.FileDiff)),
      names.Nodup →
      (∀ nm ∈ names, nm ∉ acc.map Prod.fst) →
      CompareEnvs.buildCrossAux ptFiles prodFiles flag acc names =
        acc ++ names.filterMap (fun nm =>
          if CompareEnvs.retainFile (CompareEnvs.joinLookup ptFiles nm)
              (CompareEnvs.joinLookup prodFiles nm)
              (CompareEnvs.computeDiffs (CompareEnvs.joinLookup ptFiles nm)
                (CompareEnvs.joinLookup prodFiles nm) flag) then
            some (nm, ⟨CompareEnvs.joinLookup ptFiles nm,
              CompareEnvs.joinLookup prodFiles nm,
              CompareEnvs.computeDiffs (CompareEnvs.joinLookup ptFiles nm)
                (CompareEnvs.joinLookup prodFiles nm) flag⟩)
          else none) := by
  intro names
  induction names with
  | nil => intro acc _ _; simp [CompareEnvs.buildCrossAux]
  | cons nm rest ih =>
    intro acc hnd hdis
    obtain ⟨hna, hndr⟩ := List.nodup_cons.1 hnd
    simp only [CompareEnvs.buildCrossAux]
    by_cases hret : CompareEnvs.retainFile (CompareEnvs.joinLookup ptFiles nm)
        (CompareEnvs.joinLookup prodFiles nm)
        (CompareEnvs.computeDiffs (CompareEnvs.joinLookup ptFiles nm)
          (CompareEnvs.joinLookup prodFiles nm) flag) = true
    · rw [if_pos hret,
        objInsert_fresh acc nm _ (hdis _ (List.mem_cons_self _ _))]
      have hdis' : ∀ nm' ∈ rest, nm' ∉
          (acc ++ [(nm, (⟨CompareEnvs.joinLookup ptFiles nm,
            CompareEnvs.joinLookup prodFiles nm,
            CompareEnvs.computeDiffs (CompareEnvs.joinLookup ptFiles nm)
              (CompareEnvs.joinLookup prodFiles nm) flag⟩ :
            CompareEnvs.FileDiff))]).map Prod.fst := by
        intro nm' hnm'
        simp only [List.map_append, List.mem_append]
        rintro (h | h)
        · exact hdis nm' (List.mem_cons_of_mem _ hnm') h
        · simp only [List.map_cons, List.map_nil, List.mem_singleton] at h
          exact hna (h ▸ hnm')
      rw [ih _ hndr hdis']
      simp [List.filterMap_cons, hret, List.append_assoc]
    · rw [if_neg hret,
        ih acc hndr (fun nm' hnm' => hdis nm' (List.mem_cons_of_mem _ hnm'))]
      simp [List.filterMap_cons, hret]

end BuilderLemmas

theorem CheckConfig.temporal_retainFile_iff (o n : Option PropertyMap)
    (d : List CheckConfig.ChangeRecord) :
    CheckConfig.retainFile o n d = true ↔ (d ≠ [] ∨ o = none ∨ n = none) := by
  simp [CheckConfig.retainFile, Option.isNone_iff_eq_none, List.length_pos,
    or_assoc]

theorem CompareEnvs.cross_retainFile_iff (o n : Option PropertyMap)
    (d : List CompareEnvs.ChangeRecord) :
    CompareEnvs.retainFile o n d = true ↔ (d ≠ [] ∨ o = none ∨ n = none) := by
  simp [CompareEnvs.retainFile, Option.isNone_iff_eq_none, List.length_pos,
    or_assoc]

/-- Claim C5: a compared file's `FileDiff` appears in the report exactly when
it has at least one surviving change record or one of the two sides is
absent — in the temporal per-environment report (for compared files with
pairwise-distinct report names, which is how the report is keyed) and in
the cross-environment diffs object (keyed by the union of gathered file
names). -/
theorem claim_C5_file_retention :
    (∀ (files : List (String × Option PropertyMap × Option PropertyMap)),
      (files.map (fun t => t.1)).Nodup →
      ∀ fileName oldC newC, (fileName, oldC, newC) ∈ files →
        ((fileName, (⟨oldC, newC, CheckConfig.computeDiffs oldC newC⟩ :
            CheckConfig.FileDiff)) ∈ CheckConfig.buildEnvReport files ↔
          (CheckConfig.computeDiffs oldC newC ≠ [] ∨ oldC = none ∨
            newC = none)))
  ∧ (∀ (ptFiles prodFiles : List (String × Option PropertyMap)) (flag : Bool)
      (fileName : String),
      fileName ∈ keyUnion (ptFiles.map Prod.fst) (prodFiles.map Prod.fst) →
        ((fileName, (⟨CompareEnvs.joinLookup ptFiles fileName,
            CompareEnvs.joinLookup prodFiles fileName,
            CompareEnvs.computeDiffs (CompareEnvs.joinLookup ptFiles fileName)
              (CompareEnvs.joinLookup prodFiles fileName) flag⟩ :
            CompareEnvs.FileDiff)) ∈
            CompareEnvs.buildCrossDiffs ptFiles prodFiles flag ↔
          (CompareEnvs.computeDiffs (CompareEnvs.joinLookup ptFiles fileName)
              (CompareEnvs.joinLookup prodFiles fileName) flag ≠ [] ∨
            CompareEnvs.joinLookup ptFiles fileName = none ∨
            CompareEnvs.joinLookup prodFiles fileName = none))) := by
  constructor
  · intro files hnd fileName oldC newC hmem
    unfold CheckConfig.buildEnvReport
    rw [CheckConfig.buildEnvRepAux_eq files [] hnd (by simp),
      List.nil_append]
    constructor
    · intro h
      obtain ⟨t, ht, hgt⟩ := List.mem_filterMap.1 h
      by_cases hret : CheckConfig.retainFile t.2.1 t.2.2
          (CheckConfig.computeDiffs t.2.1 t.2.2) = true
      · rw [if_pos hret] at hgt
        injection hgt with hgt
        have ht1 : t.1 = fileName := congrArg Prod.fst hgt
        have hte : t = (fileName, oldC, newC) :=
          nodup_keys_inj hnd t ht (fileName, oldC, newC) hmem ht1
        rw [hte] at hret
        exact (CheckConfig.temporal_retainFile_iff _ _ _).1 hret
      · rw [if_neg hret] at hgt
        exact absurd hgt (by simp)
    · intro h
      refine List.mem_filterMap.2 ⟨(fileName, oldC, newC), hmem, ?_⟩
      rw [if_pos ((CheckConfig.temporal_retainFile_iff _ _ _).2 h)]
  · intro ptFiles prodFiles flag fileName hmem
    unfold CompareEnvs.buildCrossDiffs
    rw [CompareEnvs.buildCrossAux_eq ptFiles prodFiles flag _ []
      (keyUnion_nodup _ _) (by simp), List.nil_append]
    constructor
    · intro h
      obtain ⟨nm, hnm, hgt⟩ := List.mem_filterMap.1 h
      by_cases hret : CompareEnvs.retainFile (CompareEnvs.joinLookup ptFiles nm)
          (CompareEnvs.joinLookup prodFiles nm)
          (CompareEnvs.computeDiffs (CompareEnvs.joinLookup ptFiles nm)
            (CompareEnvs.joinLookup prodFiles nm) flag) = true
      · rw [if_pos hret] at hgt
        injection hgt with hgt
        have hnm1 : nm = fileName := congrArg Prod.fst hgt
        rw [hnm1] at hret
        exact (CompareEnvs.cross_retainFile_iff _ _ _).1 hret
      · rw [if_neg hret] at hgt
        exact absurd hgt (by simp)
    · intro h
      refine List.mem_filterMap.2 ⟨fileName, hmem, ?_⟩
      rw [if_pos ((CompareEnvs.cross_retainFile_iff _ _ _).2 h)]

/-- Witness for C5: a whole-file addition (old side absent) is retained in
the temporal report, and a suppressed-to-empty cross-environment file whose
`pt` side is present on both ends is retained exactly when a record
survives. -/
theorem claim_C5_file_retention_witness :
    ((("f.properties", (⟨none, some [("x", "1")],
        CheckConfig.computeDiffs none (some [("x", "1")])⟩ :
        CheckConfig.FileDiff)) ∈
        CheckConfig.buildEnvReport [("f.properties", none, some [("x", "1")])]) ↔
      (CheckConfig.computeDiffs none (some [("x", "1")]) ≠ [] ∨
        (none : Option PropertyMap) = none ∨
        (some [("x", "1")] : Option PropertyMap) = none))
  ∧ ((("g.properties", (⟨CompareEnvs.joinLookup [("g.properties", some [("h", "pt-a")])] "g.properties",
        CompareEnvs.joinLookup [] "g.properties",
        CompareEnvs.computeDiffs
          (CompareEnvs.joinLookup [("g.properties", some [("h", "pt-a")])] "g.properties")
          (CompareEnvs.joinLookup [] "g.properties") true⟩ :
        CompareEnvs.FileDiff)) ∈
        CompareEnvs.buildCrossDiffs [("g.properties", some [("h", "pt-a")])] [] true) ↔
      (CompareEnvs.computeDiffs
          (CompareEnvs.joinLookup [("g.properties", some [("h", "pt-a")])] "g.properties")
          (CompareEnvs.joinLookup [] "g.properties") true ≠ [] ∨
        CompareEnvs.joinLookup [("g.properties", some [("h", "pt-a")])] "g.properties" = none ∨
        CompareEnvs.joinLookup [] "g.properties" = none)) :=
  ⟨claim_C5_file_retention.1 [("f.properties", none, some [("x", "1")])]
      (by decide) "f.properties" none (some [("x", "1")]) (by decide),
   claim_C5_file_retention.2 [("g.properties", some [("h", "pt-a")])] [] true
      "g.properties" (by decide)⟩

/-- Claim C6: whenever the temporal driver succeeds, no environment key of
the printed report maps to an empty file mapping — environments whose
retained-file set is empty were dropped. -/
theorem claim_C6_no_empty_env (repo : CheckConfig.Repo) (oldTag newTag : String)
    (res : CheckConfig.Result)
    (hok : (CheckConfig.mainTemporal repo oldTag newTag).1 = Except.ok res) :
    ∀ env rep, (env, rep) ∈ res.envs → rep ≠ [] := by
  unfold CheckConfig.mainTemporal at hok
  split at hok
  · split at hok
    next e heq =>
      dsimp only at hok
      injection hok with hok
      intro env rep h
      rw [← hok] at h
      exact absurd h (List.not_mem_nil _)
    next allFiles heq =>
      split at hok
      next e tr heq2 =>
        dsimp only at hok
        exact absurd hok (by intro hh; injection hh)
      next erep tr heq2 =>
        dsimp only at hok
        injection hok with hok
        intro env rep h
        rw [← hok] at h
        unfold CheckConfig.pruneEmptyEnvs at h
        have h2 := (List.mem_filter.1 h).2
        intro hnil
        rw [hnil] at h2
        simp at h2
  · dsimp only at hok
    exact absurd hok (by intro hh; injection hh)

/-- Witness for C6: the single retained environment of the concrete
backend `repoWitness` indeed has a non-empty file mapping. -/
theorem claim_C6_no_empty_env_witness :
    ([("app.properties", (⟨none, some [("a", "1")],
      [⟨"a", none, some "1", CheckConfig.ChangeType.added⟩]⟩ :
      CheckConfig.FileDiff))] :
      List (String × CheckConfig.FileDiff)) ≠ [] :=
  claim_C6_no_empty_env repoWitness "v1" "v2"
    ⟨[("pt", [("app.properties", ⟨none, some [("a", "1")],
      [⟨"a", none, some "1", CheckConfig.ChangeType.added⟩]⟩)])]⟩
    (by decide) "pt"
    [("app.properties", ⟨none, some [("a", "1")],
      [⟨"a", none, some "1", CheckConfig.ChangeType.added⟩]⟩)]
    (by decide)

/-- Claim C7: in both modes, when a supplied revision reference is neither a
tag nor a reachable commit, the run ends in the fatal-error outcome (exit
status 1, diagnostic on the error stream, no JSON on standard output) with
an empty backend trace — no file listing and no content fetch happened. -/
theorem claim_C7_invalid_ref :
    (∀ (repo : CheckConfig.Repo) (oldTag newTag : String),
      (oldTag ∉ CheckConfig.validRefs repo ∨
        newTag ∉ CheckConfig.validRefs repo) →
      (∃ msg, (CheckConfig.mainTemporal repo oldTag newTag).1 =
        Except.error msg)
      ∧ (CheckConfig.mainTemporal repo oldTag newTag).2 = [])
  ∧ (∀ (repo : CompareEnvs.Repo) (tag : String) (filterArg : Option String),
      tag ∉ CompareEnvs.validRefs repo →
      (∃ msg, (CompareEnvs.mainCross repo tag filterArg).1 =
        Except.error msg)
      ∧ (CompareEnvs.mainCross repo tag filterArg).2 = []) := by
  constructor
  · intro repo oldTag newTag h
    have hc : ¬ (oldTag ∈ CheckConfig.validRefs repo ∧
        newTag ∈ CheckConfig.validRefs repo) := by
      rintro ⟨h1, h2⟩
      rcases h with h | h
      · exact h h1
      · exact h h2
    unfold CheckConfig.mainTemporal
    rw [if_neg hc]
    exact ⟨⟨_, rfl⟩, rfl⟩
  · intro repo tag filterArg h
    unfold CompareEnvs.mainCross
    by_cases hacc : repo.repoAccessible = false
    · rw [if_pos hacc]
      exact ⟨⟨_, rfl⟩, rfl⟩
    · rw [if_neg hacc, if_neg h]
      exact ⟨⟨_, rfl⟩, rfl⟩

/-- Witness for C7: the unknown reference `bad` aborts both drivers with an
empty backend trace on concrete repositories. -/
theorem claim_C7_invalid_ref_witness :
    ((∃ msg, (CheckConfig.mainTemporal repoWitness "bad" "v2").1 =
        Except.error msg)
      ∧ (CheckConfig.mainTemporal repoWitness "bad" "v2").2 = [])
  ∧ ((∃ msg, (CompareEnvs.mainCross
        ⟨true, ["v1"], [], fun _ _ => Except.error "e",
          fun _ _ => FetchResult.absent⟩ "bad" none).1 = Except.error msg)
      ∧ (CompareEnvs.mainCross
        ⟨true, ["v1"], [], fun _ _ => Except.error "e",
          fun _ _ => FetchResult.absent⟩ "bad" none).2 = []) :=
  ⟨claim_C7_invalid_ref.1 repoWitness "bad" "v2" (Or.inl (by decide)),
   claim_C7_invalid_ref.2
    ⟨true, ["v1"], [], fun _ _ => Except.error "e",
      fun _ _ => FetchResult.absent⟩ "bad" none (by decide)⟩

theorem CheckConfig.fetchFiles_no_list (repo : CheckConfig.Repo)
    (o n : String) :
    ∀ (ps : List String) (tg dir : String),
      GitAction.listC tg dir ∉ (CheckConfig.fetchFiles repo o n ps).2 := by
  intro ps
  induction ps with
  | nil => intro tg dir; simp [CheckConfig.fetchFiles]
  | cons p rest ih =>
    intro tg dir
    cases hold : CheckConfig.getFileContent repo o p with
    | error e => simp [CheckConfig.fetchFiles, hold]
    | ok oldC =>
      cases hnew : CheckConfig.getFileContent repo n p with
      | error e => simp [CheckConfig.fetchFiles, hold, hnew]
      | ok newC =>
        rcases hrec : CheckConfig.fetchFiles repo o n rest with ⟨fres, ftr⟩
        have ihtr := ih tg dir
        rw [hrec] at ihtr
        simp only at ihtr
        simp [CheckConfig.fetchFiles, hold, hnew, hrec, ihtr]

theorem CheckConfig.processEnvs_list_newTag (repo : CheckConfig.Repo)
    (o n : String) :
    ∀ (envs : List String)
      (acc : List (String × List (String × CheckConfig.FileDiff)))
      (tg dir : String),
      GitAction.listC tg dir ∈ (CheckConfig.processEnvs repo o n acc envs).2 →
      tg = n := by
  intro envs
  induction envs with
  | nil => intro acc tg dir h; simp [CheckConfig.processEnvs] at h
  | cons env rest ih =>
    intro acc tg dir h
    cases hls : repo.lsTree n ("config/" ++ env) with
    | error e =>
      simp [CheckConfig.processEnvs, hls] at h
      exact h.1
    | ok files =>
      rcases hff : CheckConfig.fetchFiles repo o n (files.filter endsWithProps)
        with ⟨fres, ftr⟩
      have hnol := CheckConfig.fetchFiles_no_list repo o n
        (files.filter endsWithProps) tg dir
      rw [hff] at hnol
      simp only at hnol
      cases fres with
      | error e =>
        simp [CheckConfig.processEnvs, hls, hff] at h
        rcases h with ⟨h1, _⟩ | h
        · exact h1
        · exact absurd h hnol
      | ok fetched =>
        rcases hpe : CheckConfig.processEnvs repo o n
            (objInsert acc env (CheckConfig.buildEnvReport fetched)) rest
          with ⟨pres, tr'⟩
        have ihtr := ih (objInsert acc env (CheckConfig.buildEnvReport fetched))
          tg dir
        rw [hpe] at ihtr
        simp only at ihtr
        simp [CheckConfig.processEnvs, hls, hff, hpe] at h
        rcases h with ⟨h1, _⟩ | h | h
        · exact h1
        · exact absurd h hnol
        · exact ihtr h

theorem CheckConfig.fetchFiles_ok_names (repo : CheckConfig.Repo)
    (o n : String) :
    ∀ (ps : List String)
      (trs : List (String × Option PropertyMap × Option PropertyMap))
      (tr : List GitAction),
      CheckConfig.fetchFiles repo o n ps = (Except.ok trs, tr) →
      ∀ t ∈ trs, ∃ p, p ∈ ps ∧ t.1 = basename p := by
  intro ps
  induction ps with
  | nil =>
    intro trs tr heq t ht
    simp [CheckConfig.fetchFiles] at heq
    rw [heq.1] at ht
    exact absurd ht (List.not_mem_nil _)
  | cons p rest ih =>
    intro trs tr heq t ht
    cases hold : CheckConfig.getFileContent repo o p with
    | error e => simp [CheckConfig.fetchFiles, hold] at heq
    | ok oldC =>
      cases hnew : CheckConfig.getFileContent repo n p with
      | error e => simp [CheckConfig.fetchFiles, hold, hnew] at heq
      | ok newC =>
        rcases hrec : CheckConfig.fetchFiles repo o n rest with ⟨fres, ftr⟩
        cases fres with
        | error e =>
          simp [CheckConfig.fetchFiles, hold, hnew, hrec, Except.map] at heq
        | ok l =>
          simp [CheckConfig.fetchFiles, hold, hnew, hrec, Except.map] at heq
          rw [← heq.1] at ht
          rcases List.mem_cons.1 ht with ht1 | ht1
          · exact ⟨p, List.mem_cons_self _ _, by rw [ht1]⟩
          · obtain ⟨p', hp', hbp⟩ := ih l ftr hrec t ht1
            exact ⟨p', List.mem_cons_of_mem _ hp', hbp⟩

theorem CheckConfig.buildEnvRepAux_names :
    ∀ (files : List (String × Option PropertyMap × Option PropertyMap))
      (acc : List (String × CheckConfig.FileDiff))
      (x : String × CheckConfig.FileDiff),
      x ∈ CheckConfig.buildEnvRepAux acc files →
      x ∈ acc ∨ x.1 ∈ files.map (fun t => t.1) := by
  intro files
  induction files with
  | nil =>
    intro acc x hx
    exact Or.inl (by simpa [CheckConfig.buildEnvRepAux] using hx)
  | cons t rest ih =>
    intro acc x hx
    obtain ⟨fileName, oldC, newC⟩ := t
    simp only [CheckConfig.buildEnvRepAux] at hx
    by_cases hret : CheckConfig.retainFile oldC newC
        (CheckConfig.computeDiffs oldC newC) = true
    · rw [if_pos hret] at hx
      rcases ih _ x hx with h | h
      · rcases mem_objInsert h with h | h
        · exact Or.inl h
        · right
          rw [h]
          simp
      · right
        simp only [List.map_cons, List.mem_cons]
        exact Or.inr h
    · rw [if_neg hret] at hx
      rcases ih _ x hx with h | h
      · exact Or.inl h
      · right
        simp only [List.map_cons, List.mem_cons]
        exact Or.inr h

theorem CheckConfig.processEnvs_ok_origin (repo : CheckConfig.Repo)
    (o n : String) :
    ∀ (envs : List String)
      (acc : List (String × List (String × CheckConfig.FileDiff)))
      (erep : List (String × List (String × CheckConfig.FileDiff)))
      (tr : List GitAction),
      CheckConfig.processEnvs repo o n acc envs = (Except.ok erep, tr) →
      ∀ env rep, (env, rep) ∈ erep →
        (env, rep) ∈ acc ∨
        (∃ files, repo.lsTree n ("config/" ++ env) = Except.ok files ∧
          ∀ nm fd, (nm, fd) ∈ rep →
            ∃ p, p ∈ files ∧ endsWithProps p = true ∧ basename p = nm) := by
  intro envs
  induction envs with
  | nil =>
    intro acc erep tr heq env rep hm
    simp [CheckConfig.processEnvs] at heq
    exact Or.inl (heq.1 ▸ hm)
  | cons env0 rest ih =>
    intro acc erep tr heq env rep hm
    cases hls : repo.lsTree n ("config/" ++ env0) with
    | error e => simp [CheckConfig.processEnvs, hls] at heq
    | ok files =>
      rcases hff : CheckConfig.fetchFiles repo o n (files.filter endsWithProps)
        with ⟨fres, ftr⟩
      cases fres with
      | error e => simp [CheckConfig.processEnvs, hls, hff] at heq
      | ok fetched =>
        rcases hpe : CheckConfig.processEnvs repo o n
            (objInsert acc env0 (CheckConfig.buildEnvReport fetched)) rest
          with ⟨pres, tr'⟩
        simp [CheckConfig.processEnvs, hls, hff, hpe] at heq
        rcases ih (objInsert acc env0 (CheckConfig.buildEnvReport fetched))
            erep tr' (by rw [hpe, heq.1]) env rep hm with h | h
        · rcases mem_objInsert h with h | h
          · exact Or.inl h
          · right
            have henv : env = env0 := congrArg Prod.fst h
            have hrep : rep = CheckConfig.buildEnvReport fetched :=
              congrArg Prod.snd h
            refine ⟨files, by rw [henv]; exact hls, ?_⟩
            intro nm fd hnf
            rw [hrep] at hnf
            rcases CheckConfig.buildEnvRepAux_names fetched [] (nm, fd) hnf
              with h0 | h0
            · exact absurd h0 (List.not_mem_nil _)
            · obtain ⟨t, ht, ht1⟩ := List.mem_map.1 h0
              obtain ⟨p, hp, hbp⟩ := CheckConfig.fetchFiles_ok_names repo o n
                (files.filter endsWithProps) fetched ftr hff t ht
              refine ⟨p, (List.mem_filter.1 hp).1, (List.mem_filter.1 hp).2, ?_⟩
              rw [← hbp]
              exact ht1
        · exact Or.inr h

/-- Claim C8: the temporal driver enumerates files only at the new revision:
every `ls-tree` call in its backend trace names the new revision, and every
file of every environment in a successful report came from the new
revision's listing of that environment's directory under the configuration
root (so a file absent from the new revision's listing is never discovered
or reported). -/
theorem claim_C8_new_revision_only (repo : CheckConfig.Repo)
    (oldTag newTag : String) :
    (∀ tg dir,
      GitAction.listC tg dir ∈ (CheckConfig.mainTemporal repo oldTag newTag).2 →
      tg = newTag)
  ∧ (∀ res, (CheckConfig.mainTemporal repo oldTag newTag).1 = Except.ok res →
      ∀ env rep, (env, rep) ∈ res.envs →
        ∃ files, repo.lsTree newTag ("config/" ++ env) = Except.ok files ∧
          ∀ nm fd, (nm, fd) ∈ rep →
            ∃ p, p ∈ files ∧ endsWithProps p = true ∧ basename p = nm) := by
  constructor
  · intro tg dir h
    unfold CheckConfig.mainTemporal at h
    split at h
    · split at h
      next e heq =>
        simp at h
        exact h.1
      next allFiles heq =>
        split at h
        next e tr heq2 =>
          have hlist := CheckConfig.processEnvs_list_newTag repo oldTag newTag
            (dedupGo [] ((allFiles.filterMap CheckConfig.envOf).filter
              (fun e => !(e == "") && !(e == ".")))) [] tg dir
          rw [heq2] at hlist
          simp only at hlist
          simp at h
          rcases h with ⟨h1, _⟩ | h
          · exact h1
          · exact hlist h
        next erep tr heq2 =>
          have hlist := CheckConfig.processEnvs_list_newTag repo oldTag newTag
            (dedupGo [] ((allFiles.filterMap CheckConfig.envOf).filter
              (fun e => !(e == "") && !(e == ".")))) [] tg dir
          rw [heq2] at hlist
          simp only at hlist
          simp at h
          rcases h with ⟨h1, _⟩ | h
          · exact h1
          · exact hlist h
    · exact absurd h (List.not_mem_nil _)
  · intro res hok env rep hm
    unfold CheckConfig.mainTemporal at hok
    split at hok
    · split at hok
      next e heq =>
        dsimp only at hok
        injection hok with hok
        rw [← hok] at hm
        exact absurd hm (List.not_mem_nil _)
      next allFiles heq =>
        split at hok
        next e tr heq2 =>
          dsimp only at hok
          exact absurd hok (by intro hh; injection hh)
        next erep tr heq2 =>
          dsimp only at hok
          injection hok with hok
          rw [← hok] at hm
          unfold CheckConfig.pruneEmptyEnvs at hm
          have hm' := (List.mem_filter.1 hm).1
          rcases CheckConfig.processEnvs_ok_origin repo oldTag newTag _ [] erep
              tr heq2 env rep hm' with h | h
          · exact absurd h (List.not_mem_nil _)
          · exact h
    · dsimp only at hok
      exact absurd hok (by intro hh; injection hh)

/-- Witness for C8: on the concrete backend `repoWitness`, the enumeration
of the configuration root in the trace indeed uses the new revision, and
the reported file of environment `pt` comes from the new revision's
listing. -/
theorem claim_C8_new_revision_only_witness :
    ("v2" = "v2")
  ∧ (∃ files,
      repoWitness.lsTree "v2" ("config/" ++ "pt") = Except.ok files ∧
      ∀ nm fd, (nm, fd) ∈
          [("app.properties", (⟨none, some [("a", "1")],
            [⟨"a", none, some "1", CheckConfig.ChangeType.added⟩]⟩ :
            CheckConfig.FileDiff))] →
        ∃ p, p ∈ files ∧ endsWithProps p = true ∧ basename p = nm) :=
  ⟨(claim_C8_new_revision_only repoWitness "v1" "v2").1 "v2" "config"
      (by decide),
   (claim_C8_new_revision_only repoWitness "v1" "v2").2
      ⟨[("pt", [("app.properties", ⟨none, some [("a", "1")],
        [⟨"a", none, some "1", CheckConfig.ChangeType.added⟩]⟩)])]⟩
      (by decide) "pt"
      [("app.properties", ⟨none, some [("a", "1")],
        [⟨"a", none, some "1", CheckConfig.ChangeType.added⟩]⟩)]
      (by decide)⟩

/-! Concrete end-to-end checks of the specification's worked scenarios:
Scenario 1 (temporal diff of `{a:1,b:2}` vs `{a:1,b:3,c:4}`), Scenario 2
(`pt-svc` vs `prod-svc` suppressed under the filter), and the full temporal
driver on the concrete backend `repoWitness`. -/

example : removeAllS "pt-" "pt-svc" = "svc" := by decide
example : removeAllS "pt-" "ppt-t-x" = "pt-x" := by decide
example : removeAllS "pt-" "apt-b-pt-c" = "ab-c" := by decide
example : CompareEnvs.normalizeValue (some "pt-svc") true = "svc" := by decide
example : CompareEnvs.normalizeValue (some "prod-svc") false = "svc" := by decide
example :
    CheckConfig.computeDiffs (some [("a", "1"), ("b", "2")])
      (some [("a", "1"), ("b", "3"), ("c", "4")]) =
    [⟨"b", some "2", some "3", CheckConfig.ChangeType.changed⟩,
     ⟨"c", none, some "4", CheckConfig.ChangeType.added⟩] := by decide
example :
    CompareEnvs.computeDiffs (some [("host", "pt-svc")])
      (some [("host", "prod-svc")]) true = [] := by decide
example :
    CompareEnvs.computeDiffs (some [("host", "pt-svc")])
      (some [("host", "prod-svc")]) false =
    [⟨"host", some "pt-svc", some "prod-svc", CompareEnvs.ChangeType.changed⟩] := by
  decide
example :
    CheckConfig.mainTemporal repoWitness "v1" "v2" =
    (Except.ok
      { envs := [("pt",
          [("app.properties",
            ⟨none, some [("a", "1")],
             [⟨"a", none, some "1", CheckConfig.ChangeType.added⟩]⟩)])] },
     [GitAction.listC "v2" "config", GitAction.listC "v2" "config/pt",
      GitAction.fetchC "v1" "config/pt/app.properties",
      GitAction.fetchC "v2" "config/pt/app.properties"]) := by decide
